import Mathlib

/-!
Verification of the Swarm coordination hub (src/app.py).

The development shallowly embeds the core of the program:
the SHA-256 content hash (hashlib.sha256 ... hexdigest),
the canonical JSON serialization (json.dumps, with and without sort_keys),
the audit log (sqlite table of events with AUTOINCREMENT ids),
the agent registry (the AGENTS dict) and its operations, and
the Flask API handlers including their truthiness validation.

Machine integers do not occur in the Python source; the SHA-256 state words
are modelled as Nat reduced mod 2^32 exactly where the algorithm requires it.
Wall-clock reads (time.time, datetime.utcnow) are passed in as explicit
parameters, so every operation is a pure state transformer.
-/

namespace Swarm

/-! ### SHA-256 (hashlib.sha256(...).hexdigest()) -/

def hexChars : List Char := "0123456789abcdef".toList

def hexDigit (n : Nat) : Char := hexChars.getD (n % 16) '0'

/-- The SHA-256 word modulus, 2^32. -/
def w32 : Nat := 4294967296

def rotr (n x : Nat) : Nat := ((x >>> n) ||| (x <<< (32 - n))) % w32

def xor32 (a b : Nat) : Nat := Nat.xor a b

def and32 (a b : Nat) : Nat := Nat.land a b

def not32 (a : Nat) : Nat := Nat.xor a 4294967295

/-- The 64 SHA-256 round constants (FIPS 180-4), written in decimal. -/
def k256 : List Nat :=
  [1116352408, 1899447441, 3049323471, 3921009573, 961987163, 1508970993,
   2453635748, 2870763221, 3624381080, 310598401, 607225278, 1426881987,
   1925078388, 2162078206, 2614888103, 3248222580, 3835390401, 4022224774,
   264347078, 604807628, 770255983, 1249150122, 1555081692, 1996064986,
   2554220882, 2821834349, 2952996808, 3210313671, 3336571891, 3584528711,
   113926993, 338241895, 666307205, 773529912, 1294757372, 1396182291,
   1695183700, 1986661051, 2177026350, 2456956037, 2730485921, 2820302411,
   3259730800, 3345764771, 3516065817, 3600352804, 4094571909, 275423344,
   430227734, 506948616, 659060556, 883997877, 958139571, 1322822218,
   1537002063, 1747873779, 1955562222, 2024104815, 2227730452, 2361852424,
   2428436474, 2756734187, 3204031479, 3329325298]

/-- The eight 32-bit words of the SHA-256 state. -/
structure H8 where
  a : Nat
  b : Nat
  c : Nat
  d : Nat
  e : Nat
  f : Nat
  g : Nat
  h : Nat

/-- The eight SHA-256 initial hash values, written in decimal. -/
def initH : H8 :=
  ⟨1779033703, 3144134277, 1013904242, 2773480762,
   1359893119, 2600822924, 528734635, 1541459225⟩

/-- UTF-8 encoding of one character, as its list of bytes. -/
def charUtf8 (c : Char) : List Nat :=
  let n := c.toNat
  if n < 128 then [n]
  else if n < 2048 then [192 + n / 64, 128 + n % 64]
  else if n < 65536 then [224 + n / 4096, 128 + n / 64 % 64, 128 + n % 64]
  else [240 + n / 262144, 128 + n / 4096 % 64, 128 + n / 64 % 64, 128 + n % 64]

/-- The UTF-8 bytes of a string (the .encode() call in the Python source). -/
def strBytes (s : String) : List Nat := s.toList.flatMap charUtf8

/-- Big-endian 8-byte encoding of the 64-bit message length. -/
def lenBytes (n : Nat) : List Nat :=
  [n / 72057594037927936 % 256, n / 281474976710656 % 256,
   n / 1099511627776 % 256, n / 4294967296 % 256,
   n / 16777216 % 256, n / 65536 % 256, n / 256 % 256, n % 256]

/-- SHA-256 padding: append 0x80, zero bytes, and the bit length, to a multiple of 64 bytes. -/
def padMsg (m : List Nat) : List Nat :=
  let L := m.length
  let zeros := (64 - (L + 9) % 64) % 64
  m ++ [128] ++ List.replicate zeros 0 ++ lenBytes (8 * L)

/-- Group bytes into big-endian 32-bit words. -/
def bytesToWords : List Nat → List Nat
  | b0 :: b1 :: b2 :: b3 :: rest =>
      (b0 * 16777216 + b1 * 65536 + b2 * 256 + b3) :: bytesToWords rest
  | _ => []

/-- Split the padded message into 64-byte blocks.  The fuel argument of the
auxiliary function is the list length, which bounds the number of blocks. -/
def chunk64Aux : Nat → List Nat → List (List Nat)
  | 0, _ => []
  | _, [] => []
  | fuel + 1, l => l.take 64 :: chunk64Aux fuel (l.drop 64)

def chunk64 (l : List Nat) : List (List Nat) := chunk64Aux l.length l

def smallSigma0 (x : Nat) : Nat := xor32 (rotr 7 x) (xor32 (rotr 18 x) (x >>> 3))

def smallSigma1 (x : Nat) : Nat := xor32 (rotr 17 x) (xor32 (rotr 19 x) (x >>> 10))

/-- Extend the 16 words of one block to the 64-entry message schedule. -/
def msgSchedule (block : List Nat) : List Nat :=
  (List.range 64).foldl
    (fun ws i =>
      if i < 16 then ws ++ [block.getD i 0]
      else
        ws ++ [(ws.getD (i - 16) 0 + smallSigma0 (ws.getD (i - 15) 0) +
                ws.getD (i - 7) 0 + smallSigma1 (ws.getD (i - 2) 0)) % w32])
    []

def bigSigma0 (x : Nat) : Nat := xor32 (rotr 2 x) (xor32 (rotr 13 x) (rotr 22 x))

def bigSigma1 (x : Nat) : Nat := xor32 (rotr 6 x) (xor32 (rotr 11 x) (rotr 25 x))

/-- One round of the SHA-256 compression function. -/
def rnd (st : H8) (kw : Nat × Nat) : H8 :=
  let s1 := bigSigma1 st.e
  let ch := xor32 (and32 st.e st.f) (and32 (not32 st.e) st.g)
  let t1 := (st.h + s1 + ch + kw.1 + kw.2) % w32
  let s0 := bigSigma0 st.a
  let maj := xor32 (and32 st.a st.b) (xor32 (and32 st.a st.c) (and32 st.b st.c))
  let t2 := (s0 + maj) % w32
  ⟨(t1 + t2) % w32, st.a, st.b, st.c, (st.d + t1) % w32, st.e, st.f, st.g⟩

/-- Process one 64-byte block. -/
def compress (H : H8) (block : List Nat) : H8 :=
  let ws := msgSchedule (bytesToWords block)
  let st := (k256.zip ws).foldl rnd H
  ⟨(H.a + st.a) % w32, (H.b + st.b) % w32, (H.c + st.c) % w32, (H.d + st.d) % w32,
   (H.e + st.e) % w32, (H.f + st.f) % w32, (H.g + st.g) % w32, (H.h + st.h) % w32⟩

/-- Big-endian bytes of one 32-bit word. -/
def w2b (w : Nat) : List Nat :=
  [w / 16777216 % 256, w / 65536 % 256, w / 256 % 256, w % 256]

/-- The 32 digest bytes. -/
def digestBytes (H : H8) : List Nat :=
  w2b H.a ++ w2b H.b ++ w2b H.c ++ w2b H.d ++ w2b H.e ++ w2b H.f ++ w2b H.g ++ w2b H.h

/-- Two lowercase hex characters per byte. -/
def bytesHex : List Nat → List Char
  | [] => []
  | b :: t => hexDigit (b / 16) :: hexDigit b :: bytesHex t

/-- SHA-256 of the UTF-8 bytes of a string, as a lowercase hex string:
hashlib.sha256(s.encode()).hexdigest(). -/
def sha256hex (s : String) : String :=
  let blocks := chunk64 (padMsg (strBytes s))
  String.mk (bytesHex (digestBytes (blocks.foldl compress initH)))

set_option maxRecDepth 8192 in
/-- SHA-256 test vector: the model reproduces the NIST digest of "abc". -/
theorem sha256hex_abc :
    sha256hex "abc" = "ba7816bf8f01cfea414140de5dae2223b00361a396177a9cb410ff61f20015ad" := by
  decide

/-! ### JSON values and json.dumps

JSON numbers are restricted to integers; the payloads the program ever
serializes are caller-opaque JSON trees and no claim depends on float
formatting. -/

inductive Json where
  | null
  | bool (b : Bool)
  | num (n : Int)
  | str (s : String)
  | arr (xs : List Json)
  | obj (kvs : List (String × Json))

/-- Four lowercase hex digits, for \u escapes. -/
def hex4 (n : Nat) : String :=
  String.mk [hexDigit (n / 4096), hexDigit (n / 256), hexDigit (n / 16), hexDigit n]

/-- One character of a JSON string, escaped the way json.dumps (ensure_ascii=True)
renders it: printable ASCII passes through, the two-character escapes are used
where Python uses them, everything else becomes \uXXXX (UTF-16 surrogate pairs
above the BMP). -/
def escChar (c : Char) : String :=
  if c = '\"' then "\\\""
  else if c = '\\' then "\\\\"
  else if c = '\n' then "\\n"
  else if c = '\r' then "\\r"
  else if c = '\t' then "\\t"
  else if c.toNat = 8 then "\\b"
  else if c.toNat = 12 then "\\f"
  else if 32 ≤ c.toNat ∧ c.toNat ≤ 126 then String.mk [c]
  else if c.toNat < 65536 then "\\u" ++ hex4 c.toNat
  else
    let n := c.toNat - 65536
    "\\u" ++ hex4 (55296 + n / 1024) ++ "\\u" ++ hex4 (56320 + n % 1024)

/-- A JSON string literal with quotes and escapes. -/
def qstr (s : String) : String :=
  "\"" ++ String.join (s.toList.map escChar) ++ "\""

mutual

/-- json.dumps with the default separators: ", " between items, ": " after keys,
object keys in insertion order. -/
def dumpsVal : Json → String
  | .null => "null"
  | .bool b => if b then "true" else "false"
  | .num n => toString n
  | .str s => qstr s
  | .arr xs => "[" ++ String.intercalate ", " (dumpsList xs) ++ "]"
  | .obj kvs => "\x7b" ++ String.intercalate ", " (dumpsKVs kvs) ++ "\x7d"

def dumpsList : List Json → List String
  | [] => []
  | x :: xs => dumpsVal x :: dumpsList xs

def dumpsKVs : List (String × Json) → List String
  | [] => []
  | (k, v) :: t => (qstr k ++ ": " ++ dumpsVal v) :: dumpsKVs t

end

/-- Code-point lexicographic comparison of character lists: the order Python
uses on str (and hence the order of sorted object keys). -/
def lexLe : List Char → List Char → Bool
  | [], _ => true
  | _ :: _, [] => false
  | x :: xs, y :: ys =>
    if x.toNat < y.toNat then true
    else if x.toNat = y.toNat then lexLe xs ys
    else false

def strLe (a b : String) : Bool := lexLe a.toList b.toList

/-- Stable insertion of one key/value pair into a key-sorted association list. -/
def insertKV (p : String × Json) : List (String × Json) → List (String × Json)
  | [] => [p]
  | q :: t => if strLe p.1 q.1 then p :: q :: t else q :: insertKV p t

/-- Stable insertion sort by key: sorted(d.items()) in the Python encoder. -/
def sortKVs (l : List (String × Json)) : List (String × Json) :=
  l.foldr insertKV []

mutual

/-- Recursively put every object's keys in sorted order (the effect of
sort_keys=True applies to nested objects as well). -/
def sortAll : Json → Json
  | .null => .null
  | .bool b => .bool b
  | .num n => .num n
  | .str s => .str s
  | .arr xs => .arr (sortAllList xs)
  | .obj kvs => .obj (sortKVs (sortAllKVs kvs))

def sortAllList : List Json → List Json
  | [] => []
  | x :: xs => sortAll x :: sortAllList xs

def sortAllKVs : List (String × Json) → List (String × Json)
  | [] => []
  | (k, v) :: t => (k, sortAll v) :: sortAllKVs t

end

/-- json.dumps(x): default options, keys in insertion order. -/
def dumps (j : Json) : String := dumpsVal j

/-- json.dumps(x, sort_keys=True): keys sorted deterministically at every level. -/
def dumpsSorted (j : Json) : String := dumpsVal (sortAll j)

/-- Python truthiness of a JSON-derived value ("if not x" at the API boundary). -/
def truthy : Json → Bool
  | .null => false
  | .bool b => b
  | .num n => decide (n ≠ 0)
  | .str s => decide (s ≠ "")
  | .arr xs => !xs.isEmpty
  | .obj kvs => !kvs.isEmpty

/-! ### Data model: agents, audit events, system state (src/app.py lines 20-22, 26-39) -/

/-- A hashable Python value used as an AGENTS dict key.  JSON arrays and
objects are unhashable in Python (using one as a dict key raises TypeError),
so a key is one of the scalar shapes. -/
inductive Key where
  | kNull
  | kBool (b : Bool)
  | kNum (n : Int)
  | kStr (s : String)
deriving DecidableEq

def toKey : Json → Option Key
  | .null => some .kNull
  | .bool b => some (.kBool b)
  | .num n => some (.kNum n)
  | .str s => some (.kStr s)
  | .arr _ => none
  | .obj _ => none

def keyToJson : Key → Json
  | .kNull => .null
  | .kBool b => .bool b
  | .kNum n => .num n
  | .kStr s => .str s

/-- One entry of the AGENTS dict, with the four keys the program stores
(insertion order: meta, last_seen, status, task). -/
structure Agent where
  meta : Json
  last_seen : ℚ
  status : String
  task : Option Json

/-- One row of the sqlite events table. -/
structure Event where
  id : Nat
  ts : String
  type : String
  payload : String
  operator : String
  hash : String
deriving DecidableEq

/-- The whole mutable state: the AGENTS dict and the events table.
nextId models the sqlite AUTOINCREMENT counter, which starts at 1. -/
structure SwarmState where
  agents : List (Key × Agent)
  events : List Event
  nextId : Nat

def initState : SwarmState := ⟨[], [], 1⟩

/-! Python dict operations: assignment keeps the position of an existing key
and appends a fresh one; membership and lookup scan by key equality. -/

def dictSet {κ α : Type} [DecidableEq κ] : List (κ × α) → κ → α → List (κ × α)
  | [], k, v => [(k, v)]
  | (k0, v0) :: t, k, v => if k0 = k then (k, v) :: t else (k0, v0) :: dictSet t k v

def dictUpdate {κ α : Type} [DecidableEq κ] : List (κ × α) → κ → (α → α) → List (κ × α)
  | [], _, _ => []
  | (k0, v0) :: t, k, f => if k0 = k then (k0, f v0) :: t else (k0, v0) :: dictUpdate t k f

def hasKey {κ α : Type} [DecidableEq κ] : List (κ × α) → κ → Bool
  | [], _ => false
  | (k0, _) :: t, k => if k0 = k then true else hasKey t k

def lookupKV {κ α : Type} [DecidableEq κ] : List (κ × α) → κ → Option α
  | [], _ => none
  | (k0, v0) :: t, k => if k0 = k then some v0 else lookupKV t k

/-! ### Audit log (src/app.py lines 41-53) -/

/-- The canonical record dict built in audit():
rec = (ts, type, payload, operator) in that insertion order. -/
def mkRec (ts evtType : String) (payload : Json) (operator : String) : Json :=
  .obj [("ts", .str ts), ("type", .str evtType), ("payload", payload), ("operator", .str operator)]

/-- audit(evt_type, payload, operator): hashes the sort_keys=True serialization
of the record, then inserts (ts, type, json.dumps(payload), operator, hash)
with the auto-assigned next id, and returns the hash. -/
def audit (evtType : String) (payload : Json) (operator ts : String) (s : SwarmState) :
    SwarmState × String :=
  let h := sha256hex (dumpsSorted (mkRec ts evtType payload operator))
  let ev : Event := ⟨s.nextId, ts, evtType, dumps payload, operator, h⟩
  (⟨s.agents, s.events ++ [ev], s.nextId + 1⟩, h)

/-! ### Agent registry (src/app.py lines 57-90) -/

/-- register_agent: unconditionally overwrite the entry, then audit. -/
def register_agent (agent_id : Key) (meta : Json) (now : ℚ) (ts : String)
    (s : SwarmState) : SwarmState :=
  let s1 : SwarmState := ⟨dictSet s.agents agent_id ⟨meta, now, "idle", none⟩, s.events, s.nextId⟩
  (audit "register_agent" (.obj [("id", keyToJson agent_id), ("meta", meta)]) "swarm-core" ts s1).1

/-- update_heartbeat: refresh last_seen if the id exists, otherwise do nothing. -/
def update_heartbeat (agent_id : Key) (now : ℚ) (s : SwarmState) : SwarmState :=
  if hasKey s.agents agent_id then
    ⟨dictUpdate s.agents agent_id (fun a => ⟨a.meta, now, a.status, a.task⟩), s.events, s.nextId⟩
  else s

/-- assign_task: return False on an unknown id before any mutation or audit;
otherwise set task and status, audit, and return True. -/
def assign_task (agent_id : Key) (task : Json) (ts : String) (s : SwarmState) :
    SwarmState × Bool :=
  if hasKey s.agents agent_id then
    let s1 : SwarmState :=
      ⟨dictUpdate s.agents agent_id (fun a => ⟨a.meta, a.last_seen, "assigned", some task⟩),
       s.events, s.nextId⟩
    ((audit "task_assigned" (.obj [("id", keyToJson agent_id), ("task", task)]) "swarm-core" ts s1).1,
     true)
  else (s, false)

/-- A value of an agent-snapshot dict entry as jsonify sees it. -/
inductive PyVal where
  | vjson (j : Json)
  | vnum (q : ℚ)
  | vstr (s : String)
  | vnone

def taskVal : Option Json → PyVal
  | none => .vnone
  | some j => .vjson j

/-- round(x, 1): one decimal place, ties to even (Python banker's rounding). -/
def round1 (q : ℚ) : ℚ :=
  let x := 10 * q
  let f : ℤ := Int.floor x
  let r : ℤ := if x - f = 1 / 2 then (if f % 2 = 0 then f else f + 1) else round x
  (r : ℚ) / 10

/-- The dict literal stored by register_agent, spread by list_agents. -/
def agentDict (a : Agent) : List (String × PyVal) :=
  [("meta", .vjson a.meta), ("last_seen", .vnum a.last_seen),
   ("status", .vstr a.status), ("task", taskVal a.task)]

/-- list_agents: for each agent, the spread of its dict plus the computed
last_seen_delta; reads the state and mutates nothing. -/
def list_agents (now : ℚ) (s : SwarmState) : List (Key × List (String × PyVal)) :=
  s.agents.map (fun kv =>
    (kv.1, agentDict kv.2 ++ [("last_seen_delta", .vnum (round1 (now - kv.2.last_seen)))]))

/-! ### Flask routes (src/app.py lines 98-139) -/

/-- The three response shapes the handlers produce: a JSON body with an "ok"
flag (HTTP 200), a validation failure (HTTP 400), or an uncaught exception
(HTTP 500: .get on a non-dict body, or an unhashable dict key). -/
inductive Resp where
  | ok (success : Bool)
  | badRequest
  | serverErr
deriving DecidableEq

/-- POST /api/register. -/
def api_register (data : Json) (now : ℚ) (ts : String) (s : SwarmState) : Resp × SwarmState :=
  match data with
  | .obj kvs =>
    let meta := (lookupKV kvs "meta").getD (.obj [])
    match lookupKV kvs "agent_id" with
    | none => (.badRequest, s)
    | some aid =>
      if truthy aid then
        match toKey aid with
        | some k => (.ok true, register_agent k meta now ts s)
        | none => (.serverErr, s)
      else (.badRequest, s)
  | _ => (.serverErr, s)

/-- POST /api/heartbeat. -/
def api_heartbeat (data : Json) (now : ℚ) (s : SwarmState) : Resp × SwarmState :=
  match data with
  | .obj kvs =>
    match lookupKV kvs "agent_id" with
    | none => (.badRequest, s)
    | some aid =>
      if truthy aid then
        match toKey aid with
        | some k => (.ok true, update_heartbeat k now s)
        | none => (.serverErr, s)
      else (.badRequest, s)
  | _ => (.serverErr, s)

/-- POST /api/assign. -/
def api_assign (data : Json) (ts : String) (s : SwarmState) : Resp × SwarmState :=
  match data with
  | .obj kvs =>
    match lookupKV kvs "agent_id", lookupKV kvs "task" with
    | some aid, some task =>
      if truthy aid && truthy task then
        match toKey aid with
        | some k =>
          let r := assign_task k task ts s
          (.ok r.2, r.1)
        | none => (.serverErr, s)
      else (.badRequest, s)
    | _, _ => (.badRequest, s)
  | _ => (.serverErr, s)

/-- GET /api/audit: SELECT * FROM events ORDER BY id DESC LIMIT 50. -/
def api_audit (s : SwarmState) : List Event :=
  (s.events.mergeSort (fun a b => decide (b.id ≤ a.id))).take 50

/-! ### Command sequences: every reachable state is run of some list -/

inductive Cmd where
  | register (agent_id : Key) (meta : Json) (now : ℚ) (ts : String)
  | heartbeat (agent_id : Key) (now : ℚ)
  | assign (agent_id : Key) (task : Json) (ts : String)
  | rawAudit (evtType : String) (payload : Json) (operator ts : String)

def step (s : SwarmState) (c : Cmd) : SwarmState :=
  match c with
  | .register id meta now ts => register_agent id meta now ts s
  | .heartbeat id now => update_heartbeat id now s
  | .assign id task ts => (assign_task id task ts s).1
  | .rawAudit ty p op ts => (audit ty p op ts s).1

def run (cmds : List Cmd) : SwarmState := cmds.foldl step initState

/-! ### Association-list (Python dict) lemmas -/

theorem lookupKV_dictSet_self {κ α : Type} [DecidableEq κ] (l : List (κ × α)) (k : κ) (v : α) :
    lookupKV (dictSet l k v) k = some v := by
  induction l with
  | nil => simp [dictSet, lookupKV]
  | cons hd t ih =>
    obtain ⟨k0, v0⟩ := hd
    by_cases h : k0 = k
    · simp [dictSet, h, lookupKV]
    · simp [dictSet, h, lookupKV, ih]

theorem mem_dictSet {κ α : Type} [DecidableEq κ] {l : List (κ × α)} {k : κ} {v : α}
    {kv : κ × α} (h : kv ∈ dictSet l k v) : kv = (k, v) ∨ kv ∈ l := by
  induction l with
  | nil => simp [dictSet] at h; simp [h]
  | cons hd t ih =>
    obtain ⟨k0, v0⟩ := hd
    by_cases h0 : k0 = k
    · simp [dictSet, h0] at h
      rcases h with h | h
      · exact Or.inl (by simp [h])
      · exact Or.inr (by simp [h])
    · simp [dictSet, h0] at h
      rcases h with h | h
      · exact Or.inr (by simp [h])
      · rcases ih h with h1 | h1
        · exact Or.inl h1
        · exact Or.inr (by simp [h1])

theorem mem_dictUpdate {κ α : Type} [DecidableEq κ] {l : List (κ × α)} {k : κ} {f : α → α}
    {kv : κ × α} (h : kv ∈ dictUpdate l k f) :
    kv ∈ l ∨ ∃ kv0, kv0 ∈ l ∧ kv = (kv0.1, f kv0.2) := by
  induction l with
  | nil => simp [dictUpdate] at h
  | cons hd t ih =>
    obtain ⟨k0, v0⟩ := hd
    by_cases h0 : k0 = k
    · simp [dictUpdate, h0] at h
      rcases h with h | h
      · exact Or.inr ⟨(k0, v0), by simp, by simp [h, h0]⟩
      · exact Or.inl (by simp [h])
    · simp [dictUpdate, h0] at h
      rcases h with h | h
      · exact Or.inl (by simp [h])
      · rcases ih h with h1 | h1
        · exact Or.inl (by simp [h1])
        · obtain ⟨kv0, hmem, heq⟩ := h1
          exact Or.inr ⟨kv0, by simp [hmem], heq⟩

theorem lookupKV_dictUpdate_self {κ α : Type} [DecidableEq κ] {l : List (κ × α)} {k : κ}
    {a : α} (f : α → α) (h : lookupKV l k = some a) :
    lookupKV (dictUpdate l k f) k = some (f a) := by
  induction l with
  | nil => simp [lookupKV] at h
  | cons hd t ih =>
    obtain ⟨k0, v0⟩ := hd
    by_cases h0 : k0 = k
    · simp [lookupKV, h0] at h
      simp [dictUpdate, h0, lookupKV, h]
    · simp [lookupKV, h0] at h
      simp [dictUpdate, h0, lookupKV, ih h]

theorem lookupKV_map_snd {κ α β : Type} [DecidableEq κ] (F : α → β) (l : List (κ × α)) (k : κ) :
    lookupKV (l.map (fun kv => (kv.1, F kv.2))) k = Option.map F (lookupKV l k) := by
  induction l with
  | nil => simp [lookupKV]
  | cons hd t ih =>
    obtain ⟨k0, v0⟩ := hd
    by_cases h0 : k0 = k
    · simp [lookupKV, h0]
    · simp [lookupKV, h0, ih]

/-! ### Reachability machinery -/

theorem run_append_single (cmds : List Cmd) (c : Cmd) :
    run (cmds ++ [c]) = step (run cmds) c := by
  simp [run, List.foldl_append]

theorem run_preserve (P : SwarmState → Prop) (h0 : P initState)
    (hs : ∀ s c, P s → P (step s c)) : ∀ cmds, P (run cmds) := by
  have aux : ∀ (cs : List Cmd) (s : SwarmState), P s → P (List.foldl step s cs) := by
    intro cs
    induction cs with
    | nil => intro s h; simpa using h
    | cons c t ih => intro s h; exact ih _ (hs _ _ h)
  intro cmds
  exact aux cmds initState h0

/-- Every step leaves the existing events in place and at most appends. -/
theorem step_events_extend (s : SwarmState) (c : Cmd) :
    ∃ tl, (step s c).events = s.events ++ tl := by
  cases c with
  | register id meta now ts => exact ⟨_, rfl⟩
  | heartbeat id now =>
    by_cases h : hasKey s.agents id = true
    · exact ⟨[], by simp [step, update_heartbeat, h]⟩
    · exact ⟨[], by simp [step, update_heartbeat, h]⟩
  | assign id task ts =>
    simp only [step, assign_task]
    by_cases h : hasKey s.agents id = true
    · rw [if_pos h]
      exact ⟨_, rfl⟩
    · rw [if_neg h]
      exact ⟨[], by simp⟩
  | rawAudit ty p op ts => exact ⟨_, rfl⟩

/-- The audit-store invariant: ids are exactly 1..n in order, and the
AUTOINCREMENT counter is n+1. -/
def StoreInv (s : SwarmState) : Prop :=
  s.events.map (fun e => e.id) = List.range' 1 s.events.length ∧
  s.nextId = s.events.length + 1

theorem storeInv_append (s : SwarmState) (hs : StoreInv s) (ev : Event) (h : ev.id = s.nextId) :
    StoreInv ⟨s.agents, s.events ++ [ev], s.nextId + 1⟩ := by
  obtain ⟨h1, h2⟩ := hs
  constructor
  · simp only [List.map_append, List.length_append, List.map_cons, List.map_nil,
      List.length_cons, List.length_nil]
    rw [h1, h, h2]
    rw [List.range'_concat]
    simp [Nat.add_comm]
  · simp [h2]

theorem storeInv_step (s : SwarmState) (c : Cmd) (hs : StoreInv s) : StoreInv (step s c) := by
  cases c with
  | register id meta now ts =>
    exact storeInv_append ⟨_, s.events, s.nextId⟩ hs _ rfl
  | heartbeat id now =>
    by_cases h : hasKey s.agents id = true
    · simpa [step, update_heartbeat, h] using hs
    · simpa [step, update_heartbeat, h] using hs
  | assign id task ts =>
    by_cases h : hasKey s.agents id = true
    · simp only [step, assign_task, h, if_true]
      exact storeInv_append ⟨_, s.events, s.nextId⟩ hs _ rfl
    · simpa [step, assign_task, h] using hs
  | rawAudit ty p op ts =>
    exact storeInv_append ⟨s.agents, s.events, s.nextId⟩ hs _ rfl

theorem run_storeInv (cmds : List Cmd) : StoreInv (run cmds) :=
  run_preserve StoreInv ⟨rfl, rfl⟩ storeInv_step cmds

/-! ### Shape of SHA-256 hex digests -/

theorem hexDigit_mem (n : Nat) : hexDigit n ∈ hexChars := by
  have h : n % 16 < hexChars.length := Nat.mod_lt _ (by decide)
  simp only [hexDigit, List.getD_eq_getElem?_getD, List.getElem?_eq_getElem h, Option.getD_some]
  exact List.getElem_mem h

theorem bytesHex_length (l : List Nat) : (bytesHex l).length = 2 * l.length := by
  induction l with
  | nil => rfl
  | cons b t ih => simp [bytesHex, ih]; ring

theorem digestBytes_length (H : H8) : (digestBytes H).length = 32 := by
  simp [digestBytes, w2b]

/-- Every digest the model produces is 64 characters long. -/
theorem sha256hex_length (s : String) : (sha256hex s).length = 64 := by
  show (bytesHex (digestBytes _)).length = 64
  rw [bytesHex_length, digestBytes_length]

theorem mem_bytesHex {c : Char} : ∀ {l : List Nat}, c ∈ bytesHex l → c ∈ hexChars
  | [], h => by simp [bytesHex] at h
  | b :: t, h => by
    simp only [bytesHex, List.mem_cons] at h
    rcases h with h | h | h
    · rw [h]; exact hexDigit_mem _
    · rw [h]; exact hexDigit_mem _
    · exact mem_bytesHex h

/-- Every digest character is a lowercase hex digit. -/
theorem sha256hex_chars (s : String) : ∀ c ∈ (sha256hex s).toList, c ∈ hexChars := by
  intro c hc
  exact mem_bytesHex hc

/-! ### The per-event hash law -/

/-- The stored serialized payload comes from some JSON value whose canonical
record rebuilt from the row's own fields hashes to the stored hash. -/
def HashOk (e : Event) : Prop :=
  ∃ p, e.payload = dumps p ∧
    e.hash = sha256hex (dumpsSorted (mkRec e.ts e.type p e.operator))

theorem audit_hashOk (ty : String) (p : Json) (op ts : String) (s : SwarmState)
    (hs : ∀ x ∈ s.events, HashOk x) :
    ∀ e ∈ (audit ty p op ts s).1.events, HashOk e := by
  intro e he
  rcases List.mem_append.mp he with h | h
  · exact hs e h
  · rcases List.mem_singleton.mp h with rfl
    exact ⟨p, rfl, rfl⟩

theorem run_hashOk (cmds : List Cmd) : ∀ e ∈ (run cmds).events, HashOk e := by
  refine run_preserve (fun s => ∀ e ∈ s.events, HashOk e) (by simp [initState]) ?_ cmds
  intro s c hP
  cases c with
  | register id meta now ts =>
    exact audit_hashOk _ _ _ _ ⟨_, s.events, s.nextId⟩ hP
  | heartbeat id now =>
    by_cases h : hasKey s.agents id = true
    · simpa [step, update_heartbeat, h] using hP
    · simpa [step, update_heartbeat, h] using hP
  | assign id task ts =>
    simp only [step, assign_task]
    by_cases h : hasKey s.agents id = true
    · rw [if_pos h]
      exact audit_hashOk _ _ _ _ ⟨_, s.events, s.nextId⟩ hP
    · rw [if_neg h]
      exact hP
  | rawAudit ty p op ts =>
    exact audit_hashOk _ _ _ _ ⟨s.agents, s.events, s.nextId⟩ hP

theorem lookupKV_some_hasKey {κ α : Type} [DecidableEq κ] {l : List (κ × α)} {k : κ} {v : α}
    (h : lookupKV l k = some v) : hasKey l k = true := by
  induction l with
  | nil => simp [lookupKV] at h
  | cons hd t ih =>
    obtain ⟨k0, v0⟩ := hd
    by_cases h0 : k0 = k
    · simp [hasKey, h0]
    · simp only [lookupKV, h0, if_neg] at h
      simp [hasKey, h0, ih h]

/-! ## Claim C1

The spec asserts that assign_task on an unknown id appends the task_assigned
audit event anyway.  In the source the early return False sits inside the
locked block, before the audit call, so no event is written on that path:
the claim is false and the audit happens only on success. -/

/-- C1 counterexample: assigning to the unknown id "ghost" in the empty
registry returns False and appends nothing at all, contradicting the claim
that the task_assigned audit event is appended regardless. -/
theorem C1_counterexample :
    (assign_task (Key.kStr "ghost") (Json.str "x") "t0" initState).2 = false ∧
    (assign_task (Key.kStr "ghost") (Json.str "x") "t0" initState).1.events = [] ∧
    ¬ ∃ e, e ∈ (assign_task (Key.kStr "ghost") (Json.str "x") "t0" initState).1.events ∧
        e.type = "task_assigned" := by
  refine ⟨rfl, rfl, ?_⟩
  rintro ⟨e, he, -⟩
  rw [show (assign_task (Key.kStr "ghost") (Json.str "x") "t0" initState).1.events = []
    from rfl] at he
  exact absurd he (List.not_mem_nil e)

/-- C1 amended: when assign_task is called for an id not present in the
registry, no audit event is appended at all (the event store is unchanged)
and the call reports failure; the audit append happens only on success. -/
theorem C1_unknown_assign_no_audit (s : SwarmState) (id : Key) (task : Json) (ts : String)
    (h : hasKey s.agents id = false) :
    (assign_task id task ts s).1.events = s.events ∧ (assign_task id task ts s).2 = false := by
  simp [assign_task, h]

theorem C1_unknown_assign_no_audit_witness :
    hasKey initState.agents (Key.kStr "ghost") = false ∧
    (assign_task (Key.kStr "ghost") (Json.num 7) "t1" initState).1.events = initState.events ∧
    (assign_task (Key.kStr "ghost") (Json.num 7) "t1" initState).2 = false :=
  ⟨rfl, C1_unknown_assign_no_audit initState (Key.kStr "ghost") (Json.num 7) "t1" rfl⟩

/-! ## Claim C2: the stored hash is reproducible from the stored fields -/

/-- C2: for every audit record in any reachable store there is a payload value
whose plain serialization is the stored payload column, such that hashing the
canonical (key-sorted) serialization of the record rebuilt from the row's own
timestamp, type, payload and operator reproduces the stored hash, which is
64 lowercase hex characters. -/
theorem C2_hash_roundtrip (cmds : List Cmd) (e : Event) (he : e ∈ (run cmds).events) :
    (∃ p, e.payload = dumps p ∧
        e.hash = sha256hex (dumpsSorted (mkRec e.ts e.type p e.operator))) ∧
    e.hash.length = 64 ∧ ∀ c ∈ e.hash.toList, c ∈ hexChars := by
  obtain ⟨p, hp, hh⟩ := run_hashOk cmds e he
  refine ⟨⟨p, hp, hh⟩, ?_, ?_⟩
  · rw [hh]; exact sha256hex_length _
  · rw [hh]; exact sha256hex_chars _

def c2cmds : List Cmd :=
  [Cmd.register (Key.kStr "a1") (Json.obj [("role", Json.str "scout")]) 0 "t0"]

/-- The audit row that registering a1 writes; the hash literal was checked
against hashlib.sha256 over json.dumps(rec, sort_keys=True). -/
def c2event : Event :=
  ⟨1, "t0", "register_agent",
   "\x7b\"id\": \"a1\", \"meta\": \x7b\"role\": \"scout\"\x7d\x7d",
   "swarm-core",
   "1fe8aabdd21f5b52d7bdf7e307af8095a7443c459b18f8e67626f7e5582f4fab"⟩

set_option maxRecDepth 16384 in
theorem C2_hash_roundtrip_witness :
    c2event ∈ (run c2cmds).events ∧
    ((∃ p, c2event.payload = dumps p ∧
        c2event.hash = sha256hex (dumpsSorted (mkRec c2event.ts c2event.type p c2event.operator))) ∧
      c2event.hash.length = 64 ∧ ∀ c ∈ c2event.hash.toList, c ∈ hexChars) := by
  have hm : c2event ∈ (run c2cmds).events := by
    rw [show (run c2cmds).events = [c2event] from by decide]
    exact List.mem_singleton_self c2event
  exact ⟨hm, C2_hash_roundtrip c2cmds c2event hm⟩

/-! ## Claim C3: register unconditionally overwrites and audits once -/

/-- C3: register_agent always replaces the entry for the id with
(meta, last_seen = now, status = idle, task = null) — also on
re-registration, discarding any prior assignment — and appends exactly one
register_agent event whose payload serializes the id and metadata. -/
theorem C3_register_overwrites (s : SwarmState) (id : Key) (meta : Json) (now : ℚ) (ts : String) :
    (register_agent id meta now ts s).agents = dictSet s.agents id ⟨meta, now, "idle", none⟩ ∧
    lookupKV (register_agent id meta now ts s).agents id = some ⟨meta, now, "idle", none⟩ ∧
    (register_agent id meta now ts s).events =
      s.events ++ [⟨s.nextId, ts, "register_agent",
        dumps (Json.obj [("id", keyToJson id), ("meta", meta)]), "swarm-core",
        sha256hex (dumpsSorted (mkRec ts "register_agent"
          (Json.obj [("id", keyToJson id), ("meta", meta)]) "swarm-core"))⟩] :=
  ⟨rfl, lookupKV_dictSet_self s.agents id ⟨meta, now, "idle", none⟩, rfl⟩

/-! ## Claim C4: assign fails without mutation on unknown ids -/

/-- C4: assign_task on an unknown id returns false with the state untouched;
on a known id it returns true and rewrites exactly that agent's status to
assigned and task to the given task. -/
theorem C4_assign_semantics (s : SwarmState) (id : Key) (task : Json) (ts : String) :
    (hasKey s.agents id = false → assign_task id task ts s = (s, false)) ∧
    (hasKey s.agents id = true →
      (assign_task id task ts s).2 = true ∧
      (assign_task id task ts s).1.agents =
        dictUpdate s.agents id (fun a => ⟨a.meta, a.last_seen, "assigned", some task⟩) ∧
      ∀ a, lookupKV s.agents id = some a →
        lookupKV (assign_task id task ts s).1.agents id =
          some ⟨a.meta, a.last_seen, "assigned", some task⟩) := by
  constructor
  · intro h
    simp [assign_task, h]
  · intro h
    simp only [assign_task, h, if_true]
    refine ⟨by trivial, by trivial, ?_⟩
    intro a ha
    exact lookupKV_dictUpdate_self (fun a => ⟨a.meta, a.last_seen, "assigned", some task⟩) ha

def c4state : SwarmState := run [Cmd.register (Key.kStr "a1") (Json.obj []) 0 "t0"]

theorem C4_assign_semantics_witness :
    hasKey initState.agents (Key.kStr "ghost") = false ∧
    assign_task (Key.kStr "ghost") (Json.str "x") "t1" initState = (initState, false) ∧
    hasKey c4state.agents (Key.kStr "a1") = true ∧
    lookupKV c4state.agents (Key.kStr "a1") = some ⟨Json.obj [], 0, "idle", none⟩ ∧
    (assign_task (Key.kStr "a1") (Json.str "patrol") "t1" c4state).2 = true ∧
    lookupKV (assign_task (Key.kStr "a1") (Json.str "patrol") "t1" c4state).1.agents
        (Key.kStr "a1") = some ⟨Json.obj [], 0, "assigned", some (Json.str "patrol")⟩ := by
  refine ⟨rfl, (C4_assign_semantics initState (Key.kStr "ghost") (Json.str "x") "t1").1 rfl,
    rfl, rfl, ((C4_assign_semantics c4state (Key.kStr "a1") (Json.str "patrol") "t1").2 rfl).1, ?_⟩
  exact ((C4_assign_semantics c4state (Key.kStr "a1") (Json.str "patrol") "t1").2 rfl).2.2
    ⟨Json.obj [], 0, "idle", none⟩ rfl

/-! ## Claim C5: heartbeat on an unknown id is a silent no-op -/

/-- C5: update_heartbeat leaves the state untouched when the id is unknown and
never touches the event store; when the id is known it only refreshes that
agent's last_seen to now.  At the API layer a heartbeat for a well-formed but
unknown agent id still answers ok with no state change and no audit event. -/
theorem C5_heartbeat_silent (s : SwarmState) (id : Key) (now : ℚ)
    (kvs : List (String × Json)) (a : String) :
    ((hasKey s.agents id = false → update_heartbeat id now s = s) ∧
     (update_heartbeat id now s).events = s.events ∧
     (∀ ag, lookupKV s.agents id = some ag →
        lookupKV (update_heartbeat id now s).agents id =
          some ⟨ag.meta, now, ag.status, ag.task⟩)) ∧
    (lookupKV kvs "agent_id" = some (Json.str a) → a ≠ "" →
      hasKey s.agents (Key.kStr a) = false →
      api_heartbeat (Json.obj kvs) now s = (Resp.ok true, s)) := by
  constructor
  · refine ⟨?_, ?_, ?_⟩
    · intro h
      simp [update_heartbeat, h]
    · by_cases h : hasKey s.agents id = true
      · simp [update_heartbeat, h]
      · simp [update_heartbeat, h]
    · intro ag hag
      have hk : hasKey s.agents id = true := lookupKV_some_hasKey hag
      simp only [update_heartbeat, hk, if_true]
      exact lookupKV_dictUpdate_self (fun a => ⟨a.meta, now, a.status, a.task⟩) hag
  · intro hga hne hka
    simp [api_heartbeat, hga, truthy, hne, toKey, update_heartbeat, hka]

def c5state : SwarmState := run [Cmd.register (Key.kStr "a1") (Json.obj []) 0 "t0"]

theorem C5_heartbeat_silent_witness :
    hasKey c5state.agents (Key.kStr "ghost") = false ∧
    update_heartbeat (Key.kStr "ghost") 5 c5state = c5state ∧
    (update_heartbeat (Key.kStr "ghost") 5 c5state).events = c5state.events ∧
    lookupKV c5state.agents (Key.kStr "a1") = some ⟨Json.obj [], 0, "idle", none⟩ ∧
    lookupKV (update_heartbeat (Key.kStr "a1") 5 c5state).agents (Key.kStr "a1") =
      some ⟨Json.obj [], 5, "idle", none⟩ ∧
    lookupKV [("agent_id", Json.str "ghost")] "agent_id" = some (Json.str "ghost") ∧
    api_heartbeat (Json.obj [("agent_id", Json.str "ghost")]) 5 c5state = (Resp.ok true, c5state) := by
  have h1 := (C5_heartbeat_silent c5state (Key.kStr "ghost") 5
    [("agent_id", Json.str "ghost")] "ghost").1
  have h2 := (C5_heartbeat_silent c5state (Key.kStr "a1") 5
    [("agent_id", Json.str "ghost")] "ghost").1
  have h3 := (C5_heartbeat_silent c5state (Key.kStr "ghost") 5
    [("agent_id", Json.str "ghost")] "ghost").2
  refine ⟨rfl, h1.1 rfl, h1.2.1, rfl, ?_, rfl, ?_⟩
  · exact h2.2.2 ⟨Json.obj [], 0, "idle", none⟩ rfl
  · exact h3 rfl (by decide) rfl

/-! ## Claim C6: the audit log is append-only with gapless increasing ids -/

/-- C6: running one more operation only ever extends the event list at its
end (no update or delete), and in every reachable state the event ids read
off in storage order are exactly 1, 2, ..., n: strictly increasing, gapless,
so id order is append order. -/
theorem C6_append_only_gapless (cmds : List Cmd) :
    (∀ c, ∃ tl, (run (cmds ++ [c])).events = (run cmds).events ++ tl) ∧
    (run cmds).events.map (fun e => e.id) = List.range' 1 (run cmds).events.length := by
  constructor
  · intro c
    rw [run_append_single]
    exact step_events_extend (run cmds) c
  · exact (run_storeInv cmds).1

/-! ## Claim C7: /api/audit returns min(50, n) records, newest first -/

theorem pairwise_lt_range1 : ∀ (n s : Nat), (List.range' s n).Pairwise (fun a b => a < b)
  | 0, _ => by simp
  | n + 1, s => by
    rw [List.range'_succ]
    refine List.Pairwise.cons ?_ (pairwise_lt_range1 n (s + 1))
    intro m hm
    obtain ⟨i, hi, rfl⟩ := List.mem_range'.mp hm
    omega

theorem nodup_range1 (s n : Nat) : (List.range' s n).Nodup :=
  List.Pairwise.imp (fun hab => Nat.ne_of_lt hab) (pairwise_lt_range1 n s)

/-- C7: the audit listing has exactly min(50, total) rows, the returned rows
carry strictly descending ids (most recent first), every returned row is a
stored event, and every stored event that is left out is older than every
returned row. -/
theorem C7_api_audit_shape (cmds : List Cmd) :
    (api_audit (run cmds)).length = min 50 (run cmds).events.length ∧
    (api_audit (run cmds)).Pairwise (fun a b => b.id < a.id) ∧
    (∀ e ∈ api_audit (run cmds), e ∈ (run cmds).events) ∧
    (∀ e ∈ (run cmds).events, e ∉ api_audit (run cmds) →
      ∀ x ∈ api_audit (run cmds), e.id < x.id) := by
  have hids : (run cmds).events.map (fun e => e.id) =
      List.range' 1 (run cmds).events.length := (run_storeInv cmds).1
  have hnd : ((run cmds).events.map (fun e => e.id)).Nodup := by
    rw [hids]; exact nodup_range1 1 (run cmds).events.length
  have hperm : List.Perm ((run cmds).events.mergeSort (fun a b => decide (b.id ≤ a.id)))
      (run cmds).events := List.mergeSort_perm (run cmds).events _
  have hsorted : ((run cmds).events.mergeSort (fun a b => decide (b.id ≤ a.id))).Pairwise
      (fun a b => decide (b.id ≤ a.id)) := by
    refine List.sorted_mergeSort ?_ ?_ (run cmds).events
    · intro a b c hab hbc
      simp only [decide_eq_true_eq] at *
      omega
    · intro a b
      simp only [Bool.or_eq_true, decide_eq_true_eq]
      omega
  have hmsNodup : (((run cmds).events.mergeSort (fun a b => decide (b.id ≤ a.id))).map
      (fun e => e.id)).Nodup := (List.Perm.nodup_iff (hperm.map (fun e => e.id))).mpr hnd
  have hne : ((run cmds).events.mergeSort (fun a b => decide (b.id ≤ a.id))).Pairwise
      (fun a b => ¬ (a.id = b.id)) := List.pairwise_map.mp hmsNodup
  have hstrict : ((run cmds).events.mergeSort (fun a b => decide (b.id ≤ a.id))).Pairwise
      (fun a b => b.id < a.id) := by
    refine List.Pairwise.imp ?_ (hsorted.and hne)
    intro a b hab
    obtain ⟨h1, h2⟩ := hab
    simp only [decide_eq_true_eq] at h1
    omega
  refine ⟨?_, ?_, ?_, ?_⟩
  · show (((run cmds).events.mergeSort _).take 50).length = _
    rw [List.length_take, List.length_mergeSort]
  · exact List.Pairwise.sublist (List.take_sublist 50 _) hstrict
  · intro e he
    exact List.mem_mergeSort.mp (List.mem_of_mem_take he)
  · intro e hel hnot x hx
    have hsplit := List.take_append_drop 50
      ((run cmds).events.mergeSort (fun a b => decide (b.id ≤ a.id)))
    have hems : e ∈ (run cmds).events.mergeSort (fun a b => decide (b.id ≤ a.id)) :=
      List.mem_mergeSort.mpr hel
    have hedrop : e ∈ ((run cmds).events.mergeSort (fun a b => decide (b.id ≤ a.id))).drop 50 := by
      rcases List.mem_append.mp (by rw [hsplit]; exact hems) with h | h
      · exact absurd h hnot
      · exact h
    have hcross := (List.pairwise_append.mp (by rw [hsplit]; exact hstrict)).2.2
    exact hcross x hx e hedrop

/-! ## Claim C8

The spec says each list_agents entry carries exactly the four fields
metadata, status, task, last_seen_delta.  The source spreads the whole
agent dict, so the raw last_seen is in the result too: five fields. -/

def c8cmds : List Cmd := [Cmd.register (Key.kStr "a1") (Json.obj []) 0 "t0"]

def c8entry : Key × List (String × PyVal) :=
  (Key.kStr "a1",
   [("meta", PyVal.vjson (Json.obj [])), ("last_seen", PyVal.vnum 0),
    ("status", PyVal.vstr "idle"), ("task", PyVal.vnone),
    ("last_seen_delta", PyVal.vnum (round1 (1 - 0)))])

/-- C8 counterexample: after registering one agent, the single snapshot entry
carries five field names including the raw last_seen, so it is false that
every entry's fields are only metadata, status, task and last_seen_delta. -/
theorem C8_counterexample :
    list_agents 1 (run c8cmds) = [c8entry] ∧
    c8entry.2.map Prod.fst = ["meta", "last_seen", "status", "task", "last_seen_delta"] ∧
    ¬ (∀ kv, kv ∈ list_agents 1 (run c8cmds) →
        ∀ f, f ∈ kv.2.map Prod.fst →
          f ∈ (["meta", "status", "task", "last_seen_delta"] : List String)) := by
  refine ⟨rfl, rfl, fun h => ?_⟩
  have hmem : c8entry ∈ list_agents 1 (run c8cmds) := by
    rw [show list_agents 1 (run c8cmds) = [c8entry] from rfl]
    exact List.mem_singleton_self _
  have := h c8entry hmem "last_seen" (by simp [c8entry])
  simp at this

/-- C8 amended: list_agents maps each registered agent id to a copy of its
whole dict — metadata, last_seen, status, task — augmented with
last_seen_delta = round(now - last_seen, 1); it reads the registry without
mutating anything (it is a pure function of the state). -/
theorem C8_list_agents_snapshot (cmds : List Cmd) (now : ℚ) (k : Key) (a : Agent)
    (h : lookupKV (run cmds).agents k = some a) :
    lookupKV (list_agents now (run cmds)) k =
      some (agentDict a ++ [("last_seen_delta", PyVal.vnum (round1 (now - a.last_seen)))]) ∧
    (agentDict a ++ [("last_seen_delta", PyVal.vnum (round1 (now - a.last_seen)))]).map
      Prod.fst = ["meta", "last_seen", "status", "task", "last_seen_delta"] ∧
    (list_agents now (run cmds)).map Prod.fst = (run cmds).agents.map Prod.fst := by
  refine ⟨?_, rfl, ?_⟩
  · have hmap := lookupKV_map_snd
      (fun ag => agentDict ag ++ [("last_seen_delta", PyVal.vnum (round1 (now - ag.last_seen)))])
      (run cmds).agents k
    rw [h] at hmap
    simpa [list_agents] using hmap
  · simp [list_agents]

theorem C8_list_agents_snapshot_witness :
    lookupKV (run c8cmds).agents (Key.kStr "a1") = some ⟨Json.obj [], 0, "idle", none⟩ ∧
    lookupKV (list_agents 1 (run c8cmds)) (Key.kStr "a1") =
      some (agentDict ⟨Json.obj [], 0, "idle", none⟩ ++
        [("last_seen_delta", PyVal.vnum (round1 (1 - (0 : ℚ))))]) :=
  ⟨rfl, (C8_list_agents_snapshot c8cmds 1 (Key.kStr "a1") ⟨Json.obj [], 0, "idle", none⟩ rfl).1⟩

/-! ## Claim C9: a task is present only on an assigned agent -/

theorem step_agents_cases (s : SwarmState) (c : Cmd) :
    ∀ kv ∈ (step s c).agents,
      kv ∈ s.agents ∨
      (∃ id meta now, kv = (id, (⟨meta, now, "idle", none⟩ : Agent))) ∨
      (∃ kv0 task, kv0 ∈ s.agents ∧
        kv = (kv0.1, (⟨kv0.2.meta, kv0.2.last_seen, "assigned", some task⟩ : Agent))) ∨
      (∃ kv0 now, kv0 ∈ s.agents ∧
        kv = (kv0.1, (⟨kv0.2.meta, now, kv0.2.status, kv0.2.task⟩ : Agent))) := by
  intro kv hkv
  cases c with
  | register id meta now ts =>
    rcases mem_dictSet hkv with h | h
    · exact Or.inr (Or.inl ⟨id, meta, now, h⟩)
    · exact Or.inl h
  | heartbeat id now =>
    by_cases h : hasKey s.agents id = true
    · simp only [step, update_heartbeat, h, if_true] at hkv
      rcases mem_dictUpdate hkv with h1 | ⟨kv0, h0, heq⟩
      · exact Or.inl h1
      · exact Or.inr (Or.inr (Or.inr ⟨kv0, now, h0, heq⟩))
    · simp only [step, update_heartbeat, h, if_false] at hkv
      exact Or.inl hkv
  | assign id task ts =>
    simp only [step, assign_task] at hkv
    by_cases h : hasKey s.agents id = true
    · rw [if_pos h] at hkv
      rcases mem_dictUpdate hkv with h1 | ⟨kv0, h0, heq⟩
      · exact Or.inl h1
      · exact Or.inr (Or.inr (Or.inl ⟨kv0, task, h0, heq⟩))
    · rw [if_neg h] at hkv
      exact Or.inl hkv
  | rawAudit ty p op ts =>
    exact Or.inl hkv

/-- C9: in every state reachable by any sequence of operations, an agent
whose task is non-null has status assigned. -/
theorem C9_task_implies_assigned (cmds : List Cmd) (kv : Key × Agent)
    (hmem : kv ∈ (run cmds).agents) (htask : kv.2.task ≠ none) :
    kv.2.status = "assigned" := by
  refine run_preserve
    (fun s => ∀ kv ∈ s.agents, kv.2.task ≠ none → kv.2.status = "assigned")
    (by simp [initState]) ?_ cmds kv hmem htask
  intro s c hP kv2 hkv2 ht
  rcases step_agents_cases s c kv2 hkv2 with h | ⟨id, meta, now, rfl⟩ |
      ⟨kv0, task, h0, rfl⟩ | ⟨kv0, now, h0, rfl⟩
  · exact hP kv2 h ht
  · simp at ht
  · rfl
  · exact hP kv0 h0 ht

def c9cmds : List Cmd :=
  [Cmd.register (Key.kStr "a1") (Json.obj []) 0 "t0",
   Cmd.assign (Key.kStr "a1") (Json.str "patrol") "t1"]

def c9kv : Key × Agent :=
  (Key.kStr "a1", ⟨Json.obj [], 0, "assigned", some (Json.str "patrol")⟩)

theorem C9_task_implies_assigned_witness :
    c9kv ∈ (run c9cmds).agents ∧ c9kv.2.task ≠ none ∧ c9kv.2.status = "assigned" := by
  have hm : c9kv ∈ (run c9cmds).agents := by
    rw [show (run c9cmds).agents = [c9kv] from rfl]
    exact List.mem_singleton_self _
  exact ⟨hm, by simp [c9kv], C9_task_implies_assigned c9cmds c9kv hm (by simp [c9kv])⟩

/-! ## Claim C10: present-but-falsy fields are rejected like absent ones -/

/-- C10: at each endpoint, a request field that is present but falsy (empty
string, zero, false, empty containers) is rejected exactly as a missing field
is: the response is the validation failure and the state — registry and audit
store alike — is returned unchanged, so the core operation never ran. -/
theorem C10_falsy_rejected (kvs : List (String × Json)) (s : SwarmState) (now : ℚ)
    (ts : String) :
    ((∀ v, lookupKV kvs "agent_id" = some v → truthy v = false →
        api_register (Json.obj kvs) now ts s = (Resp.badRequest, s)) ∧
     (lookupKV kvs "agent_id" = none →
        api_register (Json.obj kvs) now ts s = (Resp.badRequest, s))) ∧
    ((∀ v, lookupKV kvs "agent_id" = some v → truthy v = false →
        api_heartbeat (Json.obj kvs) now s = (Resp.badRequest, s)) ∧
     (lookupKV kvs "agent_id" = none →
        api_heartbeat (Json.obj kvs) now s = (Resp.badRequest, s))) ∧
    ((∀ v, lookupKV kvs "task" = some v → truthy v = false →
        api_assign (Json.obj kvs) ts s = (Resp.badRequest, s)) ∧
     (∀ v, lookupKV kvs "agent_id" = some v → truthy v = false →
        api_assign (Json.obj kvs) ts s = (Resp.badRequest, s)) ∧
     (lookupKV kvs "agent_id" = none ∨ lookupKV kvs "task" = none →
        api_assign (Json.obj kvs) ts s = (Resp.badRequest, s))) := by
  refine ⟨⟨?_, ?_⟩, ⟨?_, ?_⟩, ?_, ?_, ?_⟩
  · intro v hv ht
    simp [api_register, hv, ht]
  · intro hv
    simp [api_register, hv]
  · intro v hv ht
    simp [api_heartbeat, hv, ht]
  · intro hv
    simp [api_heartbeat, hv]
  · intro v hv ht
    cases hcase : lookupKV kvs "agent_id" with
    | none => simp [api_assign, hcase]
    | some a => simp [api_assign, hcase, hv, ht]
  · intro v hv ht
    cases hcase : lookupKV kvs "task" with
    | none => simp [api_assign, hv, hcase]
    | some t => simp [api_assign, hv, hcase, ht]
  · intro hcase
    rcases hcase with h | h
    · simp [api_assign, h]
    · cases hcase2 : lookupKV kvs "agent_id" with
      | none => simp [api_assign, hcase2]
      | some a => simp [api_assign, hcase2, h]

theorem C10_falsy_rejected_witness :
    api_register (Json.obj [("agent_id", Json.str "")]) 0 "t" initState =
      (Resp.badRequest, initState) ∧
    api_heartbeat (Json.obj [("agent_id", Json.str "")]) 0 initState =
      (Resp.badRequest, initState) ∧
    api_assign (Json.obj [("agent_id", Json.str "a1"), ("task", Json.str "")]) "t" initState =
      (Resp.badRequest, initState) ∧
    api_assign (Json.obj [("agent_id", Json.str "a1"), ("task", Json.num 0)]) "t" initState =
      (Resp.badRequest, initState) ∧
    api_assign (Json.obj [("agent_id", Json.str "a1"), ("task", Json.bool false)]) "t"
      initState = (Resp.badRequest, initState) ∧
    api_assign (Json.obj [("agent_id", Json.str ""), ("task", Json.str "x")]) "t" initState =
      (Resp.badRequest, initState) ∧
    api_register (Json.obj [("meta", Json.obj [])]) 0 "t" initState =
      (Resp.badRequest, initState) := by
  refine ⟨?_, ?_, ?_, ?_, ?_, ?_, ?_⟩
  · exact (C10_falsy_rejected [("agent_id", Json.str "")] initState 0 "t").1.1
      (Json.str "") rfl rfl
  · exact (C10_falsy_rejected [("agent_id", Json.str "")] initState 0 "t").2.1.1
      (Json.str "") rfl rfl
  · exact (C10_falsy_rejected [("agent_id", Json.str "a1"), ("task", Json.str "")]
      initState 0 "t").2.2.1 (Json.str "") rfl rfl
  · exact (C10_falsy_rejected [("agent_id", Json.str "a1"), ("task", Json.num 0)]
      initState 0 "t").2.2.1 (Json.num 0) rfl rfl
  · exact (C10_falsy_rejected [("agent_id", Json.str "a1"), ("task", Json.bool false)]
      initState 0 "t").2.2.1 (Json.bool false) rfl rfl
  · exact (C10_falsy_rejected [("agent_id", Json.str ""), ("task", Json.str "x")]
      initState 0 "t").2.2.2.1 (Json.str "") rfl rfl
  · exact (C10_falsy_rejected [("meta", Json.obj [])] initState 0 "t").1.2 rfl

end Swarm
